import Mathlib

set_option autoImplicit false

/-!
Verification of `rna-seq-annotator.py` against its design specification.

The source is shallowly embedded: Python dicts become association lists with
in-place update semantics (`updateDict` / `getDict`), text lines become lists
of characters, floats become rationals, and code that can raise returns
`Except`.  Each embedded definition carries a comment pointing at the source
construct it mirrors.
-/

namespace RnaSeq

instance {ε β : Type} [DecidableEq ε] [DecidableEq β] :
    DecidableEq (Except ε β) := fun a b =>
  match a, b with
  | .error x, .error y =>
      if h : x = y then isTrue (h ▸ rfl)
      else isFalse (fun he => h (Except.error.inj he))
  | .ok x, .ok y =>
      if h : x = y then isTrue (h ▸ rfl)
      else isFalse (fun he => h (Except.ok.inj he))
  | .error _, .ok _ => isFalse (fun he => Except.noConfusion he)
  | .ok _, .error _ => isFalse (fun he => Except.noConfusion he)

/-! ## Python dict operations

`updateDict k v d` is the Python statement `d[k] = v`: when `k` is present its
value is replaced in place (insertion order kept), otherwise the pair is
appended.  `getDict k d` is `d.get(k)`. -/

def updateDict {κ ν : Type} [DecidableEq κ] (k : κ) (v : ν) :
    List (κ × ν) → List (κ × ν)
  | [] => [(k, v)]
  | (k', v') :: rest =>
      if k' = k then (k, v) :: rest else (k', v') :: updateDict k v rest

def getDict {κ ν : Type} [DecidableEq κ] (k : κ) : List (κ × ν) → Option ν
  | [] => none
  | (k', v') :: rest => if k' = k then some v' else getDict k rest

/-! ## Python string primitives on lists of characters -/

abbrev Chars := List Char

def isSpc (c : Char) : Bool := c.isWhitespace

def stripTrail (l : Chars) : Chars := (l.reverse.dropWhile isSpc).reverse

/-- Python `s.strip()`: remove leading and trailing whitespace. -/
def pyStrip (l : Chars) : Chars := (stripTrail l).dropWhile isSpc

/-- Python `s.split(sep, 1)` as an option: `some (before, after)` around the
first occurrence of `sep`, `none` when `sep` does not occur. -/
def splitFirst (sep : Char) : Chars → Option (Chars × Chars)
  | [] => none
  | c :: rest =>
      if c = sep then some ([], rest)
      else
        match splitFirst sep rest with
        | none => none
        | some p => some (c :: p.1, p.2)

/-- Python `s.split(c)[0]`: the characters before the first `c`. -/
def upTo (c : Char) (l : Chars) : Chars := l.takeWhile (fun x => x ≠ c)

/-- Python `s.startswith(pre)` (first argument is the pattern). -/
def startsWith : Chars → Chars → Bool
  | [], _ => true
  | _ :: _, [] => false
  | p :: ps, c :: cs => p = c && startsWith ps cs

/-! ## OBO parser state (`_parse_obo_file`) -/

/-- The `current_term` dict of `_parse_obo_file`: the fixed list/dict slots are
created at `[Term]`, the scalar slots (`id`, `name`, `definition`) only appear
once assigned. -/
structure TermRecord where
  id : Option Chars := none
  name : Option Chars := none
  definition : Option Chars := none
  synonyms : List Chars := []
  xrefs : List Chars := []
  relationships : List (Chars × Chars) := []
  properties : List (Chars × Chars) := []
deriving DecidableEq, Repr

/-- Exceptions the parse loop can raise: `KeyError` from
`terms[current_term['id']]` when the block never set an `id`, and
`ValueError` from `rel_type, target = value.split(' ', 1)` when a
`relationship` value has no space. -/
inductive PErr where
  | keyError
  | valueError
deriving DecidableEq, Repr

abbrev Terms := List (Chars × TermRecord)

/-- `terms[current_term['id']] = current_term`. -/
def storeTerm (terms : Terms) (ct : TermRecord) : Except PErr Terms :=
  match ct.id with
  | none => .error .keyError
  | some i => .ok (updateDict i ct terms)

/-- The `key == ...` elif chain of `_parse_obo_file` (lines 139-159); `value`
has already been stripped. -/
def applyKeyVal (ct : TermRecord) (key value : Chars) : Except PErr TermRecord :=
  if key = "id".toList then .ok { ct with id := some value }
  else if key = "name".toList then .ok { ct with name := some value }
  else if key = "def".toList then .ok { ct with definition := some value }
  else if key = "synonym".toList then
    .ok { ct with synonyms := ct.synonyms ++ [value] }
  else if key = "xref".toList then
    .ok { ct with xrefs := ct.xrefs ++ [value] }
  else if key = "is_a".toList then
    .ok { ct with relationships :=
            ct.relationships ++ [("is_a".toList, pyStrip (upTo '!' value))] }
  else if key = "relationship".toList then
    match splitFirst ' ' value with
    | none => .error .valueError
    | some (relType, target) =>
        .ok { ct with relationships :=
                ct.relationships ++ [(relType, pyStrip (upTo '!' target))] }
  else .ok { ct with properties := updateDict key value ct.properties }

/-- One iteration of the `for line in f` loop of `_parse_obo_file`.  The state
is the `terms` dict together with the optional open block `current_term`. -/
def parseStep (st : Terms × Option TermRecord) (rawLine : Chars) :
    Except PErr (Terms × Option TermRecord) :=
  let line := pyStrip rawLine
  if startsWith "[Term]".toList line then
    match st.2 with
    | some ct =>
        match storeTerm st.1 ct with
        | .error e => .error e
        | .ok ts => .ok (ts, some ({} : TermRecord))
    | none => .ok (st.1, some ({} : TermRecord))
  else
    match st.2 with
    | none => .ok st
    | some ct =>
        if line = [] then .ok st
        else
          match splitFirst ':' line with
          | none => .ok st
          | some (key, rawValue) =>
              match applyKeyVal ct key (pyStrip rawValue) with
              | .error e => .error e
              | .ok ct' => .ok (st.1, some ct')

/-- The whole `for line in f` loop (a raised exception aborts the loop). -/
def runLines (st : Terms × Option TermRecord) :
    List Chars → Except PErr (Terms × Option TermRecord)
  | [] => .ok st
  | l :: ls =>
      match parseStep st l with
      | .error e => .error e
      | .ok st' => runLines st' ls

/-- `_parse_obo_file` on the file's lines: run the loop from the empty state,
then finalize a still-open block at end of input. -/
def parseOboFile (lines : List Chars) : Except PErr Terms :=
  match runLines ([], none) lines with
  | .error e => .error e
  | .ok (ts, none) => .ok ts
  | .ok (ts, some ct) =>
      match storeTerm ts ct with
      | .error e => .error e
      | .ok ts' => .ok ts'

/-! ## Data rows (pandas DataFrame rows as dicts of cells) -/

/-- A cell of the tabular data: caller columns and `sequence` are strings or
numbers, the per-ontology `..._annotation` columns hold lists of term ids,
the `..._confidence` columns hold numbers. -/
inductive CellValue where
  | str : String → CellValue
  | strList : List String → CellValue
  | num : ℚ → CellValue
deriving DecidableEq, Repr

abbrev Row := List (String × CellValue)

/-! ## Scoring and term matching -/

/-- `_calculate_match_confidence`: the source's placeholder scoring strategy,
which returns `0.0` for every pair.  The engine definitions below take the
scoring function as a parameter (the spec's pluggable ScoringStrategy); this
stub is the source's concrete instance. -/
def calculateMatchConfidence {α : Type} (_seq : String) (_term : α) : ℚ := 0

/-- `_find_matching_terms`: walk the ontology's terms in order, keep ids whose
score clears `min_confidence` (`confidence >= min_confidence`), return the
matches with `np.mean` of the kept scores, or `([], 0.0)` when nothing
matched. -/
def findMatchingTerms {α : Type} (score : String → α → ℚ) (minConf : ℚ)
    (ontology : List (String × α)) (seq : String) : List String × ℚ :=
  let r := ontology.foldl
    (fun (acc : List String × List ℚ) p =>
      let c := score seq p.2
      if minConf ≤ c then (acc.1 ++ [p.1], acc.2 ++ [c]) else acc)
    ([], [])
  if r.1.isEmpty then ([], 0) else (r.1, r.2.sum / (r.2.length : ℚ))

/-! ## Batch annotation (`_annotate_batch`, `annotate_sequence`) -/

/-- The per-row effect of `_annotate_batch`: loop over the requested
ontologies, skip ones that are not loaded (logged, `continue`), read
`row['sequence']` from the original row (`KeyError` → the whole batch raises),
and set the `{ontology}_annotation` / `{ontology}_confidence` columns on the
copied row `acc`. -/
def annotateRecordGo {α : Type} (score : String → α → ℚ) (minConf : ℚ)
    (onts : List (String × List (String × α))) (orig : Row) :
    List String → Row → Except Unit Row
  | [], acc => .ok acc
  | o :: rest, acc =>
      match getDict o onts with
      | none => annotateRecordGo score minConf onts orig rest acc
      | some g =>
          match getDict "sequence" orig with
          | some (.str s) =>
              let r := findMatchingTerms score minConf g s
              annotateRecordGo score minConf onts orig rest
                (updateDict (o ++ "_confidence") (.num r.2)
                  (updateDict (o ++ "_annotation") (.strList r.1) acc))
          | _ => .error ()

def annotateRecord {α : Type} (score : String → α → ℚ) (minConf : ℚ)
    (onts : List (String × List (String × α))) (required : List String)
    (r : Row) : Except Unit Row :=
  annotateRecordGo score minConf onts r required r

/-- Effectful map over a list in `Except` (the first raised exception aborts). -/
def mapE {β γ : Type} (f : β → Except Unit γ) : List β → Except Unit (List γ)
  | [] => .ok []
  | x :: xs =>
      match f x with
      | .error e => .error e
      | .ok y =>
          match mapE f xs with
          | .error e => .error e
          | .ok ys => .ok (y :: ys)

/-- `_annotate_batch`: annotate each row of the batch; any raised exception
makes the whole batch's future raise. -/
def annotateBatch {α : Type} (score : String → α → ℚ) (minConf : ℚ)
    (onts : List (String × List (String × α))) (required : List String)
    (batch : List Row) : Except Unit (List Row) :=
  mapE (annotateRecord score minConf onts required) batch

/-- `sequence_data[i:i + batch_size] for i in range(0, len, batch_size)`,
with the list's length as fuel (enough whenever `B ≥ 1`). -/
def chunksGo {α : Type} (B : ℕ) : ℕ → List α → List (List α)
  | _, [] => []
  | 0, _ :: _ => []
  | fuel + 1, x :: xs => ((x :: xs).take B) :: chunksGo B fuel ((x :: xs).drop B)

def chunks {α : Type} (B : ℕ) (l : List α) : List (List α) :=
  chunksGo B l.length l

/-- `annotate_sequence`: split into batches, submit each batch to the pool and
gather the futures in submission order (a failed future is logged and
skipped), then `pd.concat` the surviving batches — which raises when none
survive.  `range(0, n, 0)` raises, hence the `batchSize = 0` branch.  The
worker count only affects scheduling, never the gathered order, so it is a
dead parameter of the embedding. -/
def annotateSequence {α : Type} (score : String → α → ℚ) (minConf : ℚ)
    (onts : List (String × List (String × α))) (batchSize _maxWorkers : ℕ)
    (required : List String) (rows : List Row) : Except Unit (List Row) :=
  if batchSize = 0 then .error ()
  else
    let results := (chunks batchSize rows).map
      (fun b => annotateBatch score minConf onts required b)
    let survivors := results.filterMap Except.toOption
    if survivors.isEmpty then .error () else .ok survivors.flatten

/-! ## Ontology loading with cache (`_load_ontologies`) -/

/-- One iteration of the `for ontology_name, file_path in ...` loop of
`_load_ontologies`, abstracted over the graph type.  The whole body sits in
one `try/except`: a raised cache read (`get`/`json.loads`) or parse error is
caught and leaves the ontology unregistered (`none`); a raised `setex` comes
after `self.ontologies[name]` was assigned, so the registration survives. -/
def loadOntologyOne {γ : Type} (hasCacheClient : Bool)
    (cacheGet : Except Unit (Option γ)) (cacheSet : Except Unit Unit)
    (parseResult : Except Unit γ) : Option γ :=
  if hasCacheClient then
    match cacheGet with
    | .error _ => none
    | .ok (some g) => some g
    | .ok none =>
        match parseResult with
        | .error _ => none
        | .ok g =>
            match cacheSet with
            | .error _ => some g
            | .ok _ => some g
  else
    match parseResult with
    | .error _ => none
    | .ok g => some g

/-! ## Validation (`validate_annotations`, `_validate_row`) -/

/-- Python truthiness of a cell (`not row.get(col)` uses it; `None`,
empty list, empty string and `0` are falsy). -/
def cellTruthy : CellValue → Bool
  | .str s => !s.isEmpty
  | .strList l => !l.isEmpty
  | .num q => q != 0

def truthyOpt : Option CellValue → Bool
  | none => false
  | some v => cellTruthy v

/-- `_validate_row`: walk the required ontologies in order; a missing or falsy
`{o}_annotation` yields `MISSING_REQUIRED_ANNOTATION`, else a confidence below
the rule threshold yields `LOW_CONFIDENCE` (`row.get(col, 0)`; comparing a
non-number against the float threshold is a `TypeError`, hence `.error`),
else move on; `PASS` once every required ontology is cleared. -/
def validateRow (minConf : ℚ) (row : Row) : List String → Except Unit String
  | [] => .ok "PASS"
  | o :: rest =>
      if truthyOpt (getDict (o ++ "_annotation") row) = false then
        .ok "MISSING_REQUIRED_ANNOTATION"
      else
        match (getDict (o ++ "_confidence") row).getD (.num 0) with
        | .num q =>
            if q < minConf then .ok "LOW_CONFIDENCE"
            else validateRow minConf row rest
        | _ => .error ()

/-- `validate_annotations`: copy the data and attach the per-row verdict as
the `validation_status` column. -/
def validateAll (required : List String) (minConf : ℚ) (rows : List Row) :
    Except Unit (List Row) :=
  mapE (fun r =>
    match validateRow minConf r required with
    | .error e => .error e
    | .ok v => .ok (updateDict "validation_status" (.str v) r)) rows

/-- An ontology check the validator clears for a row: the annotation cell is
present and truthy, and the confidence cell (defaulting to `0`) is a number
at or above the rule threshold. -/
def passOnt (minConf : ℚ) (row : Row) (o : String) : Prop :=
  truthyOpt (getDict (o ++ "_annotation") row) = true ∧
  ∃ q : ℚ, (getDict (o ++ "_confidence") row).getD (.num 0) = .num q ∧
    minConf ≤ q

/-- One supplied key:value item of a term block.  `propL` is a line whose key
is none of the recognized ones. -/
inductive BlockItem where
  | idL (v : Chars)
  | nameL (v : Chars)
  | defL (v : Chars)
  | synL (v : Chars)
  | xrefL (v : Chars)
  | isaL (v : Chars)
  | relL (v : Chars)
  | propL (k v : Chars)

/-- The text line an item stands for. -/
def renderItem : BlockItem → Chars
  | .idL v => "id".toList ++ ':' :: v
  | .nameL v => "name".toList ++ ':' :: v
  | .defL v => "def".toList ++ ':' :: v
  | .synL v => "synonym".toList ++ ':' :: v
  | .xrefL v => "xref".toList ++ ':' :: v
  | .isaL v => "is_a".toList ++ ':' :: v
  | .relL v => "relationship".toList ++ ':' :: v
  | .propL k v => k ++ ':' :: v

def notRecognizedKey (k : Chars) : Prop :=
  k ≠ "id".toList ∧ k ≠ "name".toList ∧ k ≠ "def".toList ∧
  k ≠ "synonym".toList ∧ k ≠ "xref".toList ∧ k ≠ "is_a".toList ∧
  k ≠ "relationship".toList

/-- Well-formedness of one item: a `relationship` value must contain a space
(after trimming), and an unrecognized key must be a plausible key — nonempty,
not starting with whitespace, containing no `:`, its line not beginning with
the `[Term]` marker, and distinct from every recognized key. -/
def wellFormedItem : BlockItem → Prop
  | .relL v => ∃ rt rem, splitFirst ' ' (pyStrip v) = some (rt, rem)
  | .propL k _ => k ≠ [] ∧ (∀ c, k.head? = some c → isSpc c = false) ∧
      splitFirst ':' k = none ∧
      (∀ w, startsWith "[Term]".toList (k ++ ':' :: w) = false) ∧
      notRecognizedKey k
  | _ => True

/-- The record the claim says a well-formed block's items build, stated in
the spec's own words: values trimmed, `synonym`/`xref` appended in order with
duplicates kept, `is_a` and `relationship` targets cut at the first `!` and
trimmed, unrecognized keys stored verbatim with last write winning. -/
def specApply (ct : TermRecord) : BlockItem → TermRecord
  | .idL v => { ct with id := some (pyStrip v) }
  | .nameL v => { ct with name := some (pyStrip v) }
  | .defL v => { ct with definition := some (pyStrip v) }
  | .synL v => { ct with synonyms := ct.synonyms ++ [pyStrip v] }
  | .xrefL v => { ct with xrefs := ct.xrefs ++ [pyStrip v] }
  | .isaL v => { ct with relationships :=
      ct.relationships ++ [("is_a".toList, pyStrip (upTo '!' (pyStrip v)))] }
  | .relL v =>
      match splitFirst ' ' (pyStrip v) with
      | none => ct
      | some (rt, rem) => { ct with relationships :=
          ct.relationships ++ [(rt, pyStrip (upTo '!' rem))] }
  | .propL k v => { ct with properties := updateDict k (pyStrip v) ct.properties }

def specRecord (items : List BlockItem) : TermRecord :=
  items.foldl specApply {}

example :
    parseOboFile ["[Term]".toList, "id: GO:1 ".toList, "name: alpha".toList] =
      .ok [("GO:1".toList,
            { id := some "GO:1".toList, name := some "alpha".toList })] := by
  rfl

example :
    parseOboFile ["[Term]".toList, "name: alpha".toList] = .error .keyError := by
  rfl

example :
    findMatchingTerms (fun _ q => q) (8/10 : ℚ)
      [("T1", (9/10 : ℚ)), ("T2", 8/10), ("T3", 7/10)] "AC" =
      (["T1", "T2"], 17/20) := by
  norm_num [findMatchingTerms]

example :
    annotateSequence (fun (_ : String) (_ : Unit) => 0) (8/10)
      [("GO", [("T1", ())])] 2 4 ["GO"] [] = .error () := by
  rfl

example :
    annotateSequence (fun (_ : String) (_ : Unit) => 1) (8/10)
      [("GO", [("T1", ())])] 2 4 ["GO"]
      [[("sequence", .str "AC")]] =
      .ok [[("sequence", .str "AC"),
            ("GO_annotation", .strList ["T1"]),
            ("GO_confidence", .num 1)]] := by
  norm_num +decide [annotateSequence, chunks, chunksGo, annotateBatch, mapE,
    annotateRecord, annotateRecordGo, findMatchingTerms, getDict, updateDict]

example :
    validateRow (8/10) [("GO_annotation", .strList [])] ["GO"] =
      .ok "MISSING_REQUIRED_ANNOTATION" := by
  rfl

/-! ## Dictionary lemmas -/

theorem getDict_updateDict_self {κ ν : Type} [DecidableEq κ] (k : κ) (v : ν)
    (l : List (κ × ν)) : getDict k (updateDict k v l) = some v := by
  induction l with
  | nil => simp [getDict, updateDict]
  | cons p rest ih =>
      rcases p with ⟨k', v'⟩
      by_cases h1 : k' = k
      · subst h1; simp [getDict, updateDict]
      · simp [getDict, updateDict, h1, ih]

theorem getDict_updateDict_ne {κ ν : Type} [DecidableEq κ] (k c : κ) (v : ν)
    (l : List (κ × ν)) (h : c ≠ k) :
    getDict c (updateDict k v l) = getDict c l := by
  induction l with
  | nil => simp [getDict, updateDict, Ne.symm h]
  | cons p rest ih =>
      rcases p with ⟨k', v'⟩
      by_cases h1 : k' = k
      · subst h1; simp [getDict, updateDict, Ne.symm h]
      · simp only [getDict, updateDict, if_neg h1]
        by_cases h2 : k' = c <;> simp [h2, ih]

/-! ## Claim C4: confidence threshold and mean -/

theorem findMatchingTerms_foldl {α : Type} (score : String → α → ℚ)
    (minConf : ℚ) (s : String) :
    ∀ (g : List (String × α)) (a : List String) (b : List ℚ),
      g.foldl (fun (acc : List String × List ℚ) p =>
          let c := score s p.2
          if minConf ≤ c then (acc.1 ++ [p.1], acc.2 ++ [c]) else acc) (a, b) =
      (a ++ (g.filter (fun p => minConf ≤ score s p.2)).map Prod.fst,
       b ++ (g.filter (fun p => minConf ≤ score s p.2)).map (fun p => score s p.2))
  | [], a, b => by simp
  | p :: g, a, b => by
      simp only [List.foldl_cons, List.filter_cons]
      by_cases h : minConf ≤ score s p.2
      · rw [if_pos h, findMatchingTerms_foldl score minConf s g (a ++ [p.1])
              (b ++ [score s p.2])]
        simp [h]
      · rw [if_neg h, findMatchingTerms_foldl score minConf s g a b]
        simp [h]

/-- C4: `_find_matching_terms` retains exactly the terms whose score is
`≥ min_confidence` (boundary included), in ontology order; when at least one
term is retained the attached confidence is the arithmetic mean of the
retained scores, and when none is, the result is `([], 0.0)`. -/
theorem claim4_threshold_and_mean {α : Type} (score : String → α → ℚ)
    (minConf : ℚ) (g : List (String × α)) (s : String) :
    (findMatchingTerms score minConf g s).1 =
      (g.filter (fun p => minConf ≤ score s p.2)).map Prod.fst
    ∧ (g.filter (fun p => minConf ≤ score s p.2) = [] →
        findMatchingTerms score minConf g s = ([], 0))
    ∧ (g.filter (fun p => minConf ≤ score s p.2) ≠ [] →
        (findMatchingTerms score minConf g s).2 =
          ((g.filter (fun p => minConf ≤ score s p.2)).map
              (fun p => score s p.2)).sum /
            ((g.filter (fun p => minConf ≤ score s p.2)).length : ℚ)) := by
  unfold findMatchingTerms
  rw [findMatchingTerms_foldl score minConf s g [] []]
  simp only [List.nil_append]
  constructor
  · by_cases h : g.filter (fun p => minConf ≤ score s p.2) = [] <;>
      simp [h, List.isEmpty_iff]
  constructor
  · intro h; simp [h]
  · intro h
    have : ¬ ((g.filter (fun p => minConf ≤ score s p.2)).map Prod.fst).isEmpty = true := by
      simp [List.isEmpty_iff, h]
    simp [this, List.length_map]

/-- Witness for C4 at a concrete ontology: scores 9 and 8 clear the threshold
8 (the boundary term included), 7 is excluded, and the confidence is the mean
17/2. -/
theorem claim4_witness :
    (findMatchingTerms (fun (_ : String) (q : ℚ) => q) 8
        [("T1", (9 : ℚ)), ("T2", 8), ("T3", 7)] "AC").1 = ["T1", "T2"]
    ∧ (findMatchingTerms (fun (_ : String) (q : ℚ) => q) 8
        [("T1", (9 : ℚ)), ("T2", 8), ("T3", 7)] "AC").2 = 17 / 2 := by
  have h := claim4_threshold_and_mean (fun (_ : String) (q : ℚ) => q) 8
    [("T1", (9 : ℚ)), ("T2", 8), ("T3", 7)] "AC"
  have hfil : [("T1", (9 : ℚ)), ("T2", 8), ("T3", 7)].filter
      (fun p => (8 : ℚ) ≤ (fun (_ : String) (q : ℚ) => q) "AC" p.2) =
      [("T1", (9 : ℚ)), ("T2", 8)] := by
    norm_num [List.filter]
  refine ⟨?_, ?_⟩
  · rw [h.1, hfil]; rfl
  · rw [h.2.2 (by rw [hfil]; simp), hfil]; norm_num

/-! ## Claim C3: cache failures during ontology loading -/

/-- C3 counterexample: with a cache client present and the cache read
raising, the per-ontology handler swallows the exception and the ontology is
never parsed or registered (`none`), unlike the cache-less load of the same
parse result. -/
theorem claim3_counterexample :
    loadOntologyOne true (Except.error ()) (Except.ok ()) (Except.ok (42 : ℕ)) = none
    ∧ loadOntologyOne false (Except.ok none) (Except.ok ()) (Except.ok (42 : ℕ)) =
        some 42 :=
  ⟨rfl, rfl⟩

/-- C3 amended: a cache *write* failure never makes loading fail — the parsed
graph is registered before `setex` is attempted, exactly as with no cache —
but a cache *read* failure aborts loading of that ontology (no fallback
parse). -/
theorem claim3_write_failure_harmless {γ : Type} (setRes : Except Unit Unit)
    (g : γ) :
    loadOntologyOne true (Except.ok none) setRes (Except.ok g) = some g
    ∧ loadOntologyOne false (Except.ok none) (Except.ok ()) (Except.ok g) = some g
    ∧ (∀ parseRes : Except Unit γ,
        loadOntologyOne true (Except.error ()) setRes parseRes = none) := by
  refine ⟨?_, rfl, fun parseRes => rfl⟩
  cases setRes <;> rfl

/-! ## Claim C10: merge with no surviving batch raises -/

/-- C10: when every submitted batch fails — in particular when the input is
empty, so that zero batches are created — `annotate_sequence` raises at the
merge step (`pd.concat` of an empty list) instead of returning an empty
dataset. -/
theorem claim10_empty_merge_raises {α : Type} (score : String → α → ℚ)
    (minConf : ℚ) (onts : List (String × List (String × α))) (B w : ℕ)
    (required : List String) (rows : List Row) (hB : 0 < B)
    (hall : ∀ b ∈ chunks B rows,
      annotateBatch score minConf onts required b = .error ()) :
    annotateSequence score minConf onts B w required rows = .error () := by
  unfold annotateSequence
  rw [if_neg (Nat.pos_iff_ne_zero.mp hB)]
  have hnil : ((chunks B rows).map
      (fun b => annotateBatch score minConf onts required b)).filterMap
        Except.toOption = [] := by
    rw [List.filterMap_eq_nil_iff]
    intro r hr
    rcases List.mem_map.mp hr with ⟨b, hb, rfl⟩
    rw [hall b hb]; rfl
  simp [hnil]

/-- Witness for C10: the empty input produces zero batches and the run
raises. -/
theorem claim10_witness :
    annotateSequence calculateMatchConfidence (1 : ℚ) [("GO", [("T1", (0 : ℚ))])]
      1 4 ["GO"] [] = .error () := by
  exact claim10_empty_merge_raises calculateMatchConfidence 1
    [("GO", [("T1", (0 : ℚ))])] 1 4 ["GO"] [] (by decide)
    (by intro b hb; simp [chunks, chunksGo] at hb)

/-! ## Claim C5: validator short-circuit -/

theorem validateRow_cons_pass (minConf : ℚ) (row : Row) (o : String)
    (rest : List String) (hp : passOnt minConf row o) :
    validateRow minConf row (o :: rest) = validateRow minConf row rest := by
  rcases hp with ⟨ht, q, hq, hle⟩
  simp only [validateRow, ht, Bool.true_eq_false, if_false, hq,
    not_lt.mpr hle, if_neg (not_lt.mpr hle)]

theorem validateRow_all_pass (minConf : ℚ) (row : Row) :
    ∀ required : List String, (∀ o ∈ required, passOnt minConf row o) →
      validateRow minConf row required = .ok "PASS"
  | [], _ => rfl
  | o :: rest, h => by
      rw [validateRow_cons_pass minConf row o rest (h o (by simp))]
      exact validateRow_all_pass minConf row rest
        (fun o' ho' => h o' (by simp [ho']))

theorem validateRow_first_missing (minConf : ℚ) (row : Row) :
    ∀ (pre : List String) (o : String) (post : List String),
      (∀ o' ∈ pre, passOnt minConf row o') →
      truthyOpt (getDict (o ++ "_annotation") row) = false →
      validateRow minConf row (pre ++ o :: post) =
        .ok "MISSING_REQUIRED_ANNOTATION"
  | [], o, post, _, hm => by simp [validateRow, hm]
  | p :: pre, o, post, hpass, hm => by
      rw [List.cons_append,
        validateRow_cons_pass minConf row p (pre ++ o :: post)
          (hpass p (by simp))]
      exact validateRow_first_missing minConf row pre o post
        (fun o' ho' => hpass o' (by simp [ho'])) hm

theorem validateRow_first_low (minConf : ℚ) (row : Row) :
    ∀ (pre : List String) (o : String) (post : List String),
      (∀ o' ∈ pre, passOnt minConf row o') →
      truthyOpt (getDict (o ++ "_annotation") row) = true →
      (∃ q : ℚ, (getDict (o ++ "_confidence") row).getD (.num 0) = .num q ∧
        q < minConf) →
      validateRow minConf row (pre ++ o :: post) = .ok "LOW_CONFIDENCE"
  | [], o, post, _, ht, ⟨q, hq, hlt⟩ => by
      simp only [List.nil_append, validateRow, ht, Bool.true_eq_false,
        if_false, hq, if_pos hlt]
  | p :: pre, o, post, hpass, ht, hex => by
      rw [List.cons_append,
        validateRow_cons_pass minConf row p (pre ++ o :: post)
          (hpass p (by simp))]
      exact validateRow_first_low minConf row pre o post
        (fun o' ho' => hpass o' (by simp [ho'])) ht hex

theorem validateRow_pass_iff (minConf : ℚ) (row : Row) :
    ∀ required : List String,
      validateRow minConf row required = .ok "PASS" ↔
        ∀ o ∈ required, passOnt minConf row o
  | [] => by simp [validateRow]
  | o :: rest => by
      constructor
      · intro h
        by_cases ht : truthyOpt (getDict (o ++ "_annotation") row) = true
        · rcases hcell : (getDict (o ++ "_confidence") row).getD (.num 0) with
            s | l | q
          · simp [validateRow, ht, hcell] at h
          · simp [validateRow, ht, hcell] at h
          · by_cases hlt : q < minConf
            · simp [validateRow, ht, hcell, hlt] at h
            · have hrest := (validateRow_pass_iff minConf row rest).mp (by
                rw [← validateRow_cons_pass minConf row o rest
                  ⟨ht, q, hcell, not_lt.mp hlt⟩]
                exact h)
              intro o' ho'
              rcases List.mem_cons.mp ho' with rfl | ho'
              · exact ⟨ht, q, hcell, not_lt.mp hlt⟩
              · exact hrest o' ho'
        · have ht' : truthyOpt (getDict (o ++ "_annotation") row) = false := by
            simpa using ht
          simp [validateRow, ht'] at h
      · intro h
        exact validateRow_all_pass minConf row (o :: rest) h

/-- C5: `_validate_row` evaluates the required ontologies in list order and
the first failing check fixes the verdict: `MISSING_REQUIRED_ANNOTATION` when
that ontology's annotation cell is absent or empty, otherwise
`LOW_CONFIDENCE` when its confidence is below the rule threshold, and `PASS`
exactly when every required ontology clears both checks. -/
theorem claim5_validator_short_circuit (minConf : ℚ) (row : Row)
    (required : List String) :
    (validateRow minConf row required = .ok "PASS" ↔
      ∀ o ∈ required, passOnt minConf row o)
    ∧ (∀ pre o post, required = pre ++ o :: post →
        (∀ o' ∈ pre, passOnt minConf row o') →
        truthyOpt (getDict (o ++ "_annotation") row) = false →
        validateRow minConf row required = .ok "MISSING_REQUIRED_ANNOTATION")
    ∧ (∀ pre o post, required = pre ++ o :: post →
        (∀ o' ∈ pre, passOnt minConf row o') →
        truthyOpt (getDict (o ++ "_annotation") row) = true →
        (∃ q : ℚ, (getDict (o ++ "_confidence") row).getD (.num 0) = .num q ∧
          q < minConf) →
        validateRow minConf row required = .ok "LOW_CONFIDENCE") := by
  refine ⟨validateRow_pass_iff minConf row required, ?_, ?_⟩
  · intro pre o post heq hpass hm
    rw [heq]
    exact validateRow_first_missing minConf row pre o post hpass hm
  · intro pre o post heq hpass ht hex
    rw [heq]
    exact validateRow_first_low minConf row pre o post hpass ht hex

/-- Witness for C5, the spec's own example: with required `["GO", "SO"]`, a
row with no `GO` annotation gets `MISSING_REQUIRED_ANNOTATION` even though
its `SO` confidence is also below the threshold. -/
theorem claim5_witness :
    validateRow 1 [("SO_annotation", .strList ["x"]), ("SO_confidence", .num 0)]
      ["GO", "SO"] = .ok "MISSING_REQUIRED_ANNOTATION" := by
  exact (claim5_validator_short_circuit 1
      [("SO_annotation", .strList ["x"]), ("SO_confidence", .num 0)]
      ["GO", "SO"]).2.1 [] "GO" ["SO"] rfl (by simp) (by rfl)

/-! ## Batching lemmas (claims C2 and C8) -/

theorem chunksGo_flatten {α : Type} (B : ℕ) (hB : 0 < B) :
    ∀ (fuel : ℕ) (l : List α), l.length ≤ fuel →
      (chunksGo B fuel l).flatten = l
  | fuel, [], _ => by cases fuel <;> simp [chunksGo]
  | 0, x :: xs, h => by simp at h
  | fuel + 1, x :: xs, h => by
      rw [chunksGo, List.flatten_cons,
        chunksGo_flatten B hB fuel ((x :: xs).drop B)
          (by simp only [List.length_drop, List.length_cons] at *; omega),
        List.take_append_drop]

theorem chunksGo_sizes {α : Type} (B : ℕ) (hB : 0 < B) :
    ∀ (fuel : ℕ) (l : List α), ∀ c ∈ chunksGo B fuel l,
      c ≠ [] ∧ c.length ≤ B
  | fuel, [], c => by cases fuel <;> simp [chunksGo]
  | 0, x :: xs, c => by simp [chunksGo]
  | fuel + 1, x :: xs, c => by
      intro hc
      rw [chunksGo, List.mem_cons] at hc
      rcases hc with rfl | hc
      · refine ⟨?_, by simp [List.length_take_le]⟩
        rcases B with _ | b
        · exact absurd hB (by simp)
        · simp [List.take_succ_cons]
      · exact chunksGo_sizes B hB fuel ((x :: xs).drop B) c hc

theorem chunks_flatten {α : Type} (B : ℕ) (hB : 0 < B) (l : List α) :
    (chunks B l).flatten = l :=
  chunksGo_flatten B hB l.length l le_rfl

theorem mapE_append_split {β γ : Type} (f : β → Except Unit γ) :
    ∀ (xs ys : List β) (out : List γ), mapE f (xs ++ ys) = .ok out →
      ∃ as bs, mapE f xs = .ok as ∧ mapE f ys = .ok bs ∧ out = as ++ bs
  | [], ys, out, h => ⟨[], out, rfl, h, rfl⟩
  | x :: xs, ys, out, h => by
      rw [List.cons_append] at h
      rcases hfx : f x with e | y
      · rw [mapE, hfx] at h; cases h
      · rw [mapE, hfx] at h
        rcases hrest : mapE f (xs ++ ys) with e | rest
        · rw [hrest] at h; cases h
        · rw [hrest] at h
          rcases mapE_append_split f xs ys rest hrest with ⟨as, bs, h1, h2, rfl⟩
          cases h
          exact ⟨y :: as, bs, by rw [mapE, hfx, h1], h2, rfl⟩

/-- When the record-wise annotation of the whole input succeeds, gathering
the per-batch futures in submission order and skipping failures keeps every
batch (in order), and their concatenation is the record-wise result. -/
theorem survivors_all_ok (f : Row → Except Unit Row) :
    ∀ (cs : List (List Row)) (out : List Row),
      mapE f cs.flatten = .ok out →
      ((cs.map (mapE f)).filterMap Except.toOption).flatten = out ∧
      ((cs.map (mapE f)).filterMap Except.toOption).length = cs.length
  | [], out, h => by
      cases h; simp
  | c :: cs, out, h => by
      rw [List.flatten_cons] at h
      rcases mapE_append_split f c cs.flatten out h with ⟨as, bs, h1, h2, rfl⟩
      have ih := survivors_all_ok f cs bs h2
      rw [List.map_cons, h1]
      refine ⟨?_, ?_⟩
      · simp only [List.filterMap_cons, Except.toOption, List.flatten_cons,
          ih.1]
      · simp only [List.filterMap_cons, Except.toOption, List.length_cons,
          ih.2]

/-! ## Claim C2: partition and order preservation -/

/-- C2 counterexample: on the empty input no batch is created and none can
fail, yet `annotate_sequence` raises at the merge (`pd.concat([])`) instead
of returning the empty annotated dataset. -/
theorem claim2_counterexample :
    annotateSequence (fun (_ : String) (_ : Unit) => 0) 1 [("GO", [("T1", ())])]
      2 4 ["GO"] [] = .error () := rfl

/-- C2 amended: for every *nonempty* input and batch size `B ≥ 1`,
`annotate_sequence` partitions the records into contiguous nonempty batches
of at most `B`, and — when no batch fails, i.e. record-wise annotation of the
input succeeds — returns the annotated records in exactly the input order,
with a result independent of the configured worker count. -/
theorem claim2_order_preserved {α : Type} (score : String → α → ℚ)
    (minConf : ℚ) (onts : List (String × List (String × α)))
    (B w1 w2 : ℕ) (required : List String) (rows : List Row) (out : List Row)
    (hB : 0 < B) (hne : rows ≠ [])
    (hok : mapE (annotateRecord score minConf onts required) rows = .ok out) :
    ((∀ c ∈ chunks B rows, c ≠ [] ∧ c.length ≤ B)
      ∧ (chunks B rows).flatten = rows)
    ∧ annotateSequence score minConf onts B w1 required rows = .ok out
    ∧ annotateSequence score minConf onts B w1 required rows =
        annotateSequence score minConf onts B w2 required rows := by
  have hflat : (chunks B rows).flatten = rows := chunks_flatten B hB rows
  have hmain := survivors_all_ok (annotateRecord score minConf onts required)
    (chunks B rows) out (by rw [hflat]; exact hok)
  refine ⟨⟨fun c hc => chunksGo_sizes B hB rows.length rows c hc, hflat⟩,
    ?_, rfl⟩
  unfold annotateSequence
  rw [if_neg (Nat.pos_iff_ne_zero.mp hB)]
  have hcs : chunks B rows ≠ [] := by
    intro hnil
    rw [hnil] at hflat
    exact hne hflat.symm
  have hlen : ((chunks B rows).map
      (mapE (annotateRecord score minConf onts required))).filterMap
        Except.toOption ≠ [] := by
    intro hnil
    rw [hnil] at hmain
    exact hcs (List.length_eq_zero.mp hmain.2.symm)
  simp only [annotateBatch]
  rw [if_neg (fun hEmp => hlen (List.isEmpty_iff.mp hEmp))]
  rw [hmain.1]

/-- Witness for C2 with three records in batches of two: the output keeps
the input order and content. -/
theorem claim2_witness :
    annotateSequence calculateMatchConfidence 1 [("GO", [("T1", (0 : ℚ))])]
      2 4 ["GO"]
      [[("sequence", .str "A")], [("sequence", .str "C")],
        [("sequence", .str "G")]] =
    .ok [[("sequence", .str "A"), ("GO_annotation", .strList []),
            ("GO_confidence", .num 0)],
          [("sequence", .str "C"), ("GO_annotation", .strList []),
            ("GO_confidence", .num 0)],
          [("sequence", .str "G"), ("GO_annotation", .strList []),
            ("GO_confidence", .num 0)]] := by
  exact (claim2_order_preserved calculateMatchConfidence 1
    [("GO", [("T1", (0 : ℚ))])] 2 4 7 ["GO"]
    [[("sequence", .str "A")], [("sequence", .str "C")],
      [("sequence", .str "G")]] _ (by decide) (by decide) (by rfl)).2.1

/-! ## Claim C8: a failed batch is dropped, siblings survive -/

/-- C8 counterexample: when the only batch fails, no sibling exists to
survive and the run *is* aborted — the merge step raises instead of
returning an output with the failed batch excluded. -/
theorem claim8_counterexample :
    annotateSequence calculateMatchConfidence 1 [("GO", [("T1", (0 : ℚ))])]
      5 4 ["GO"] [[("x", .num 1)]] = .error () := rfl

/-- C8 amended: when some batch fails but at least one batch succeeds, the
run is not aborted: the failing batches' records are excluded and the output
is the concatenation of the surviving batches' annotations in original
submission order. -/
theorem claim8_failed_batch_dropped {α : Type} (score : String → α → ℚ)
    (minConf : ℚ) (onts : List (String × List (String × α)))
    (B w : ℕ) (required : List String) (rows : List Row)
    (hB : 0 < B)
    (_hfail : ∃ b ∈ chunks B rows,
      annotateBatch score minConf onts required b = .error ())
    (hsucc : ∃ b ∈ chunks B rows, ∃ ob,
      annotateBatch score minConf onts required b = .ok ob) :
    annotateSequence score minConf onts B w required rows =
      .ok (((chunks B rows).filterMap
        (fun b => (annotateBatch score minConf onts required b).toOption)).flatten) := by
  rcases hsucc with ⟨b, hb, ob, hob⟩
  unfold annotateSequence
  rw [if_neg (Nat.pos_iff_ne_zero.mp hB)]
  have hmem : ob ∈ ((chunks B rows).map
      (fun b => annotateBatch score minConf onts required b)).filterMap
        Except.toOption := by
    rw [List.mem_filterMap]
    exact ⟨.ok ob, List.mem_map.mpr ⟨b, hb, hob⟩, rfl⟩
  rw [if_neg (fun hEmp => List.ne_nil_of_mem hmem (List.isEmpty_iff.mp hEmp))]
  rw [List.filterMap_map]
  rfl

/-- Witness for C8: two one-record batches, the second lacking a `sequence`
column; the first batch's annotation survives, the second is dropped. -/
theorem claim8_witness :
    annotateSequence calculateMatchConfidence 1 [("GO", [("T1", (0 : ℚ))])]
      1 4 ["GO"] [[("sequence", .str "A")], [("x", .num 1)]] =
    .ok [[("sequence", .str "A"), ("GO_annotation", .strList []),
            ("GO_confidence", .num 0)]] := by
  have h := claim8_failed_batch_dropped calculateMatchConfidence 1
    [("GO", [("T1", (0 : ℚ))])] 1 4 ["GO"]
    [[("sequence", .str "A")], [("x", .num 1)]] (by decide)
    ⟨[[("x", .num 1)]], by decide, by rfl⟩
    ⟨[[("sequence", .str "A")]], by decide, ⟨_, rfl⟩⟩
  rw [h]
  rfl

/-! ## Claim C9: caller columns are preserved -/

theorem annotateRecordGo_frame {α : Type} (score : String → α → ℚ)
    (minConf : ℚ) (onts : List (String × List (String × α))) (orig : Row)
    (c : String) :
    ∀ (req : List String) (acc out : Row),
      annotateRecordGo score minConf onts orig req acc = .ok out →
      (∀ o ∈ req, c ≠ o ++ "_annotation" ∧ c ≠ o ++ "_confidence") →
      getDict c out = getDict c acc
  | [], acc, out, h, _ => by cases h; rfl
  | o :: req, acc, out, h, hc => by
      rw [annotateRecordGo] at h
      rcases hg : getDict o onts with _ | g
      · rw [hg] at h
        exact annotateRecordGo_frame score minConf onts orig c req acc out h
          (fun o' ho' => hc o' (List.mem_cons_of_mem o ho'))
      · rw [hg] at h
        rcases hs : getDict "sequence" orig with _ | v
        · rw [hs] at h; cases h
        · rcases v with sv | lv | qv
          · rw [hs] at h
            have ih := annotateRecordGo_frame score minConf onts orig c req _
              out h (fun o' ho' => hc o' (List.mem_cons_of_mem o ho'))
            rw [ih,
              getDict_updateDict_ne _ _ _ _ (hc o (by simp)).2,
              getDict_updateDict_ne _ _ _ _ (hc o (by simp)).1]
          · rw [hs] at h; cases h
          · rw [hs] at h; cases h

/-- C9: all caller-supplied columns (including `sequence`) pass through
annotation and validation unchanged; the only columns written are the
per-ontology `{o}_annotation` / `{o}_confidence` pairs and
`validation_status`. -/
theorem claim9_frame {α : Type} (score : String → α → ℚ) (minConf : ℚ)
    (onts : List (String × List (String × α))) (required : List String)
    (r r1 : Row) (minC : ℚ) (req2 : List String) (v : String) (c : String)
    (h1 : annotateRecord score minConf onts required r = .ok r1)
    (h2 : validateRow minC r1 req2 = .ok v)
    (hc : ∀ o ∈ required, c ≠ o ++ "_annotation" ∧ c ≠ o ++ "_confidence")
    (hv : c ≠ "validation_status") :
    validateAll req2 minC [r1] =
      .ok [updateDict "validation_status" (.str v) r1]
    ∧ getDict c (updateDict "validation_status" (.str v) r1) = getDict c r := by
  constructor
  · simp [validateAll, mapE, h2]
  · rw [getDict_updateDict_ne _ _ _ _ hv]
    exact annotateRecordGo_frame score minConf onts r c required r r1 h1 hc

/-- Witness for C9: the caller column `extra` survives annotation plus
validation untouched. -/
theorem claim9_witness :
    getDict "extra" (updateDict "validation_status"
      (CellValue.str "MISSING_REQUIRED_ANNOTATION")
      ([("sequence", CellValue.str "AC"), ("extra", CellValue.num 7),
        ("GO_annotation", CellValue.strList []),
        ("GO_confidence", CellValue.num 0)] : Row)) =
      some (CellValue.num 7) := by
  have h := claim9_frame (calculateMatchConfidence : String → ℚ → ℚ) 1
    [("GO", [("T1", (0 : ℚ))])]
    ["GO"] [("sequence", CellValue.str "AC"), ("extra", CellValue.num 7)]
    [("sequence", CellValue.str "AC"), ("extra", CellValue.num 7),
      ("GO_annotation", CellValue.strList []),
      ("GO_confidence", CellValue.num 0)]
    0 ["GO"] "MISSING_REQUIRED_ANNOTATION" "extra"
    (by rfl) (by rfl) (by decide) (by decide)
  rw [h.2]
  rfl

/-! ## Claim C1: term block without `id` -/

/-- C1 counterexample: a block with no `id` is not skipped — finalizing it
raises `KeyError`, so the whole file's parse aborts and the following
well-formed block (`id: A`) never reaches the output mapping. -/
theorem claim1_counterexample :
    parseOboFile ["[Term]".toList, "name: x".toList, "[Term]".toList,
      "id: A".toList, "name: y".toList] = .error .keyError := rfl

/-- C1 amended: finalizing a term block that never set `id` raises a
`KeyError` that aborts parsing of the entire file — whatever lines follow
are never parsed; the enclosing `_load_ontologies` handler catches the
exception, reports it, and leaves that whole ontology unregistered. -/
theorem claim1_missing_id_aborts_file (rest : List Chars) :
    parseOboFile ("[Term]".toList :: "name: x".toList :: "[Term]".toList ::
      rest) = .error .keyError := rfl

/-! ## Claim C7: what starts a new term block -/

/-- C7 counterexample: the line `[Term]x` does not consist of the literal
marker, yet it finalizes the open block (storing `A`) and starts a new one
(which becomes `B`) — because the code tests `line.startswith('[Term]')`,
not equality. -/
theorem claim7_counterexample :
    parseOboFile ["[Term]".toList, "id: A".toList, "[Term]x".toList,
      "id: B".toList] =
      .ok [("A".toList, { id := some "A".toList }),
           ("B".toList, { id := some "B".toList })]
    ∧ "[Term]x".toList ≠ "[Term]".toList
    ∧ pyStrip "[Term]x".toList = "[Term]x".toList :=
  ⟨rfl, by decide, rfl⟩

/-- C7 amended: a new term block is started exactly by a line whose stripped
form *begins with* `[Term]` (startswith, not equality); such a line with a
block open finalizes and stores the accumulated record first (keyed by its
`id`, raising if it has none), and any line that does not begin with the
marker is ignored while no block is open. -/
theorem claim7_marker_is_startswith (terms : Terms) (ct : TermRecord)
    (line : Chars) :
    (startsWith "[Term]".toList (pyStrip line) = true →
      parseStep (terms, some ct) line =
        (match storeTerm terms ct with
         | .error e => .error e
         | .ok ts => .ok (ts, some ({} : TermRecord)))
      ∧ parseStep (terms, none) line = .ok (terms, some ({} : TermRecord)))
    ∧ (startsWith "[Term]".toList (pyStrip line) = false →
      parseStep (terms, none) line = .ok (terms, none)) := by
  constructor
  · intro h
    constructor <;> (simp only [parseStep]; rw [h]; simp)
  · intro h
    simp only [parseStep]; rw [h]; simp

/-- Witness for C7: `[Term] junk` (not the literal marker) opens a block,
while `hello` is ignored outside any block. -/
theorem claim7_witness :
    parseStep ([], none) "[Term] junk".toList =
      .ok ([], some ({} : TermRecord))
    ∧ parseStep ([], none) "hello".toList = .ok ([], none) :=
  ⟨((claim7_marker_is_startswith [] ({} : TermRecord)
      "[Term] junk".toList).1 rfl).2,
   (claim7_marker_is_startswith [] ({} : TermRecord) "hello".toList).2 rfl⟩

/-! ## Claim C6: well-formed term blocks round-trip

String-level lemmas about `strip` and `split` on a line of the shape
`key ++ ':' :: value`. -/

theorem dropWhile_append_cons (p : Char → Bool) (xs ys : Chars) (c : Char)
    (hc : p c = false) :
    (xs ++ c :: ys).dropWhile p = xs.dropWhile p ++ c :: ys := by
  induction xs with
  | nil => simp [List.dropWhile_cons, hc]
  | cons a xs ih =>
      by_cases ha : p a = true
      · simp [List.dropWhile_cons, ha, ih]
      · simp [List.dropWhile_cons, ha]

theorem dropWhile_idem (p : Char → Bool) :
    ∀ l : Chars, (l.dropWhile p).dropWhile p = l.dropWhile p
  | [] => rfl
  | a :: l => by
      by_cases ha : p a = true
      · simp [List.dropWhile_cons, ha, dropWhile_idem p l]
      · simp [List.dropWhile_cons, ha]

theorem stripTrail_append_cons (xs ys : Chars) (c : Char)
    (hc : isSpc c = false) :
    stripTrail (xs ++ c :: ys) = xs ++ c :: stripTrail ys := by
  unfold stripTrail
  rw [List.reverse_append, List.reverse_cons, List.append_assoc,
    List.singleton_append, dropWhile_append_cons _ _ _ _ hc,
    List.reverse_append, List.reverse_cons, List.reverse_reverse]
  simp

theorem stripTrail_idem (l : Chars) : stripTrail (stripTrail l) = stripTrail l := by
  unfold stripTrail
  rw [List.reverse_reverse, dropWhile_idem]

theorem pyStrip_stripTrail (l : Chars) : pyStrip (stripTrail l) = pyStrip l := by
  unfold pyStrip
  rw [stripTrail_idem]

theorem pyStrip_keyline (k v : Chars) (hk : k ≠ [])
    (hhd : ∀ c, k.head? = some c → isSpc c = false) :
    pyStrip (k ++ ':' :: v) = k ++ ':' :: stripTrail v := by
  unfold pyStrip
  rw [stripTrail_append_cons k v ':' rfl]
  rcases k with _ | ⟨a, k'⟩
  · exact absurd rfl hk
  · rw [List.cons_append, List.dropWhile_cons]
    simp [hhd a rfl]

theorem splitFirst_mid (sep : Char) :
    ∀ (k w : Chars), splitFirst sep k = none →
      splitFirst sep (k ++ sep :: w) = some (k, w)
  | [], w, _ => by simp [splitFirst]
  | a :: k', w, h => by
      by_cases ha : a = sep
      · simp [splitFirst, ha] at h
      · rw [splitFirst, if_neg ha] at h
        rcases hsp : splitFirst sep k' with _ | p
        · have ih := splitFirst_mid sep k' w hsp
          rw [List.cons_append, splitFirst, if_neg ha, ih]
        · simp [hsp] at h

/-- `parseStep` on a key/value line inside an open block: strip the line,
miss the `[Term]` test, split at the first `:`, strip the value and dispatch
on the key. -/
theorem parseStep_keyval (terms : Terms) (ct : TermRecord) (k v : Chars)
    (hk : k ≠ []) (hhd : ∀ c, k.head? = some c → isSpc c = false)
    (hsp : splitFirst ':' k = none)
    (hmk : startsWith "[Term]".toList (k ++ ':' :: stripTrail v) = false) :
    parseStep (terms, some ct) (k ++ ':' :: v) =
      match applyKeyVal ct k (pyStrip v) with
      | .error e => .error e
      | .ok ct' => .ok (terms, some ct') := by
  have hline : pyStrip (k ++ ':' :: v) = k ++ ':' :: stripTrail v :=
    pyStrip_keyline k v hk hhd
  simp only [parseStep, hline]
  rw [hmk]
  simp only [Bool.false_eq_true, if_false]
  rw [if_neg (show ¬(k ++ ':' :: stripTrail v = []) by simp)]
  rw [splitFirst_mid ':' k (stripTrail v) hsp]
  simp only [pyStrip_stripTrail]

theorem parseStep_render (terms : Terms) (ct : TermRecord) (it : BlockItem)
    (h : wellFormedItem it) :
    parseStep (terms, some ct) (renderItem it) =
      .ok (terms, some (specApply ct it)) := by
  cases it with
  | idL v =>
      rw [renderItem, parseStep_keyval terms ct "id".toList v (by decide)
        (fun c hc => by cases hc; rfl) rfl rfl]
      rfl
  | nameL v =>
      rw [renderItem, parseStep_keyval terms ct "name".toList v (by decide)
        (fun c hc => by cases hc; rfl) rfl rfl]
      rfl
  | defL v =>
      rw [renderItem, parseStep_keyval terms ct "def".toList v (by decide)
        (fun c hc => by cases hc; rfl) rfl rfl]
      rfl
  | synL v =>
      rw [renderItem, parseStep_keyval terms ct "synonym".toList v (by decide)
        (fun c hc => by cases hc; rfl) rfl rfl]
      rfl
  | xrefL v =>
      rw [renderItem, parseStep_keyval terms ct "xref".toList v (by decide)
        (fun c hc => by cases hc; rfl) rfl rfl]
      rfl
  | isaL v =>
      rw [renderItem, parseStep_keyval terms ct "is_a".toList v (by decide)
        (fun c hc => by cases hc; rfl) rfl rfl]
      rfl
  | relL v =>
      rcases h with ⟨rt, rem, hsp2⟩
      rw [renderItem, parseStep_keyval terms ct "relationship".toList v
        (by decide) (fun c hc => by cases hc; rfl) rfl rfl]
      have happ : applyKeyVal ct "relationship".toList (pyStrip v) =
          match splitFirst ' ' (pyStrip v) with
          | none => .error .valueError
          | some (rt, rem) => .ok { ct with relationships :=
              ct.relationships ++ [(rt, pyStrip (upTo '!' rem))] } := rfl
      rw [happ, hsp2]
      simp only [specApply, hsp2]
  | propL k v =>
      rcases h with ⟨hk, hhd, hsp, hmk, h1, h2, h3, h4, h5, h6, h7⟩
      rw [renderItem, parseStep_keyval terms ct k v hk hhd hsp
        (hmk (stripTrail v))]
      simp only [applyKeyVal, specApply, if_neg h1, if_neg h2, if_neg h3,
        if_neg h4, if_neg h5, if_neg h6, if_neg h7]

theorem runLines_render :
    ∀ (items : List BlockItem), (∀ it ∈ items, wellFormedItem it) →
      ∀ (terms : Terms) (ct : TermRecord),
        runLines (terms, some ct) (items.map renderItem) =
          .ok (terms, some (items.foldl specApply ct))
  | [], _, terms, ct => rfl
  | it :: items, h, terms, ct => by
      rw [List.map_cons, runLines,
        parseStep_render terms ct it (h it (by simp))]
      rw [List.foldl_cons]
      exact runLines_render items (fun i hi => h i (by simp [hi])) terms
        (specApply ct it)

/-- C6: parsing a file holding one well-formed term block and looking up the
block's id returns exactly the record described by the claim: values trimmed,
`synonym`/`xref` in input order with duplicates, `is_a` targets cut at the
first `!` and trimmed, `relationship` values split at the first space with
the remainder cut at `!` and trimmed, unrecognized keys verbatim in
`properties` with last write winning. -/
theorem claim6_wellformed_roundtrip (items : List BlockItem) (tid : Chars)
    (hwf : ∀ it ∈ items, wellFormedItem it)
    (hid : (specRecord items).id = some tid) :
    parseOboFile ("[Term]".toList :: items.map renderItem) =
      .ok [(tid, specRecord items)]
    ∧ getDict tid [(tid, specRecord items)] = some (specRecord items) := by
  constructor
  · have hrun : runLines ([], none)
        ("[Term]".toList :: items.map renderItem) =
        .ok ([], some (specRecord items)) := by
      rw [runLines,
        show parseStep (([] : Terms), (none : Option TermRecord))
          "[Term]".toList = .ok ([], some ({} : TermRecord)) from rfl]
      exact runLines_render items hwf [] ({} : TermRecord)
    unfold parseOboFile
    rw [hrun]
    simp only [storeTerm, hid]
    rfl
  · simp [getDict]

/-- Witness for C6: a block with every kind of line, including a duplicated
synonym, an `is_a` and a `relationship` with `!` comments, and an
unrecognized `comment` key. -/
theorem claim6_witness :
    parseOboFile ("[Term]".toList ::
      ([.idL " GO:1 ".toList, .nameL " alpha".toList, .synL "s1".toList,
        .synL "s1".toList, .xrefL "DB:9".toList,
        .isaL " GO:0 ! parent".toList,
        .relL "part_of GO:2 ! whole".toList,
        .propL "comment".toList " hello ".toList] :
          List BlockItem).map renderItem) =
      .ok [("GO:1".toList,
        { id := some "GO:1".toList, name := some "alpha".toList,
          synonyms := ["s1".toList, "s1".toList], xrefs := ["DB:9".toList],
          relationships := [("is_a".toList, "GO:0".toList),
            ("part_of".toList, "GO:2".toList)],
          properties := [("comment".toList, "hello".toList)] })] := by
  have h := claim6_wellformed_roundtrip
    [.idL " GO:1 ".toList, .nameL " alpha".toList, .synL "s1".toList,
      .synL "s1".toList, .xrefL "DB:9".toList,
      .isaL " GO:0 ! parent".toList,
      .relL "part_of GO:2 ! whole".toList,
      .propL "comment".toList " hello ".toList]
    "GO:1".toList
    (by
      intro it hit
      simp only [List.mem_cons, List.not_mem_nil, or_false] at hit
      rcases hit with rfl | rfl | rfl | rfl | rfl | rfl | rfl | rfl
      · trivial
      · trivial
      · trivial
      · trivial
      · trivial
      · trivial
      · exact ⟨"part_of".toList, "GO:2 ! whole".toList, rfl⟩
      · exact ⟨by decide, fun c hc => by cases hc; rfl, rfl,
          fun w => rfl, by unfold notRecognizedKey; decide⟩)
    rfl
  rw [h.1]
  rfl

end RnaSeq
